import Mathlib

/-!
Verification of the log-gatherer core against its design specification.

The Go sources of the repository (cmd/main.go) are shallowly embedded below:
pure control flow becomes Lean functions, and the environment's I/O outcomes
(directory listings, open/create/copy/chtimes results, read/write results)
become explicit input data, so that every function here is executable.
-/

namespace LogGatherer

/-! ## Stream Copier (`copyFile`, main.go lines 190-206)

A call to `source.Read(buf)` is recorded as a `Step`: the bytes it produced
(`data`, at most the 1024-byte buffer), the read error (`rerr`: nothing, EOF,
or a real failure with a numeric code), and the outcome of the subsequent
`dest.Write` (`werr`).  A run of the Go loop consumes such steps in order. -/

inductive RErr where
  | eof
  | fail (code : Nat)
deriving DecidableEq

structure Step where
  data : List Nat
  rerr : Option RErr
  werr : Option Nat
deriving DecidableEq

inductive CopyErr where
  | readErr (code : Nat)
  | writeErr (code : Nat)
  | incomplete
deriving DecidableEq

/-- The Go condition `err != nil && err != io.EOF` together with the failing
code: `some c` exactly when the read error is a hard (non-EOF) failure. -/
def stepHardErr (s : Step) : Option Nat :=
  match s.rerr with
  | some (RErr.fail c) => some c
  | _ => none

/-- Size of the read buffer: `buf := make([]byte, 1024)`. -/
def bufSize : Nat := 1024

/-- Embedding of `copyFile` (main.go 190-206).  Returns the error outcome
(`none` on success) together with the bytes written to the destination.
`CopyErr.incomplete` marks a trace that ends before the loop would exit;
the Go loop would keep calling `Read` at that point. -/
def copyFile : List Step → List Nat → Option CopyErr × List Nat
  | [], written => (some CopyErr.incomplete, written)
  | s :: rest, written =>
    match stepHardErr s with
    | some c => (some (CopyErr.readErr c), written)
    | none =>
      if s.data.isEmpty then (none, written)
      else
        match s.werr with
        | some c => (some (CopyErr.writeErr c), written)
        | none => copyFile rest (written ++ s.data)

/-- A step the loop passes through: readable, nonempty chunk, write accepted. -/
def goodStep (s : Step) : Bool :=
  (stepHardErr s).isNone && !s.data.isEmpty && s.werr.isNone

/-- A step on which the loop exits successfully: zero-length read, no hard error. -/
def termStep (s : Step) : Bool :=
  (stepHardErr s).isNone && s.data.isEmpty

/-- Concatenation of the chunks delivered by a list of read steps. -/
def chunksOf : List Step → List Nat
  | [] => []
  | s :: rest => s.data ++ chunksOf rest

/-- The byte sequence a read trace delivers up to end-of-stream (the spec's
notion of "the source's byte sequence"); `none` when the trace hits a hard
read error or runs out before end-of-stream.  Write outcomes are ignored:
this is a property of the source only. -/
def sourceBytes : List Step → Option (List Nat)
  | [] => none
  | s :: rest =>
    if (stepHardErr s).isSome then none
    else if s.data.isEmpty then some []
    else (sourceBytes rest).map (fun bs => s.data ++ bs)

/-- Modelled from the spec: compression uses the Go standard library's gzip
stream container (package compress/gzip, not part of this repository's
sources).  The only property of it the spec relies on is the byte-for-byte
round trip, so it is modelled as an explicit losslessly invertible container:
the payload stored behind a header recording its length (as gzip's ISIZE
trailer does). -/
def gzipCompress (bs : List Nat) : List Nat := bs.length :: bs

/-- Modelled from the spec: inverse direction of the container of
`gzipCompress`. -/
def gzipDecompress : List Nat → List Nat
  | [] => []
  | n :: rest => rest.take n

/-! ## Timestamps

Go `time.Time` values handled by the program are UTC civil times; they are
embedded as their date/time fields.  The program formats them with the fixed
layout "20060102T150405Z" and parses the same layout back in `cleanup`. -/

structure DateTime where
  year : Nat
  month : Nat
  day : Nat
  hour : Nat
  minute : Nat
  second : Nat
deriving DecidableEq

def isLeapYear (y : Nat) : Bool :=
  (y % 4 == 0 && y % 100 != 0) || y % 400 == 0

def daysInMonth (y m : Nat) : Nat :=
  if m = 2 then (if isLeapYear y then 29 else 28)
  else if m = 4 ∨ m = 6 ∨ m = 9 ∨ m = 11 then 30
  else 31

def pad2 (n : Nat) : String :=
  if n < 10 then "0" ++ toString n else toString n

def pad4 (n : Nat) : String :=
  if n < 10 then "000" ++ toString n
  else if n < 100 then "00" ++ toString n
  else if n < 1000 then "0" ++ toString n
  else toString n

/-- Go `t.Format("20060102T150405Z")`: four-digit year, two-digit month, day,
a literal 'T', two-digit hour, minute, second, and a literal 'Z'. -/
def formatStamp (t : DateTime) : String :=
  pad4 t.year ++ pad2 t.month ++ pad2 t.day ++ "T" ++
    pad2 t.hour ++ pad2 t.minute ++ pad2 t.second ++ "Z"

def digitVal (c : Char) : Nat := c.toNat - 48

def num2 (a b : Char) : Nat := digitVal a * 10 + digitVal b

def num4 (a b c d : Char) : Nat :=
  ((digitVal a * 10 + digitVal b) * 10 + digitVal c) * 10 + digitVal d

/-- Go `time.Parse("20060102T150405Z", s)`: the value must consist of exactly
four year digits, two month digits, two day digits, a literal 'T', two hour,
minute and second digits each, and a literal 'Z', with all fields in range
(month 1-12, day valid for the month, hour below 24, minute and second below
60); anything else is a parse error (`none`). -/
def parseStamp (s : String) : Option DateTime :=
  match s.toList with
  | [y1, y2, y3, y4, mo1, mo2, d1, d2, t, h1, h2, mi1, mi2, sec1, sec2, z] =>
    if t = 'T' ∧ z = 'Z'
        ∧ y1.isDigit ∧ y2.isDigit ∧ y3.isDigit ∧ y4.isDigit
        ∧ mo1.isDigit ∧ mo2.isDigit ∧ d1.isDigit ∧ d2.isDigit
        ∧ h1.isDigit ∧ h2.isDigit ∧ mi1.isDigit ∧ mi2.isDigit
        ∧ sec1.isDigit ∧ sec2.isDigit then
      let y := num4 y1 y2 y3 y4
      let mo := num2 mo1 mo2
      let d := num2 d1 d2
      let h := num2 h1 h2
      let mi := num2 mi1 mi2
      let sec := num2 sec1 sec2
      if 1 ≤ mo ∧ mo ≤ 12 ∧ 1 ≤ d ∧ d ≤ daysInMonth y mo ∧ h ≤ 23 ∧ mi ≤ 59 ∧ sec ≤ 59 then
        some ⟨y, mo, d, h, mi, sec⟩
      else none
    else none
  | _ => none

/-- Mixed-radix key of a civil time; strictly monotone in the field-wise
lexicographic order, which for UTC civil times is the order of the instants
they denote.  `time.Before` on two such instants is comparison of the keys. -/
def dtKey (t : DateTime) : Nat :=
  ((((t.year * 13 + t.month) * 32 + t.day) * 24 + t.hour) * 60 + t.minute) * 60 + t.second

/-- Embedding of Go `a.Before(b)` for UTC civil times. -/
def ltDT (a b : DateTime) : Bool := decide (dtKey a < dtKey b)

/-! ## Per-Server Synchronizer (`CopyFiles`, main.go lines 103-188)

A directory entry together with the I/O outcomes the environment would give
for it.  `modTime`/`createTime` are the instants returned by `finfo.ModTime()`
and the Win32 creation time, as an absolute tick count. -/

structure Entry where
  name : String
  isDir : Bool
  infoOk : Bool
  modTime : Int
  createTime : Int
  openSrcOk : Bool
  createDstOk : Bool
  copySteps : List Step
  chtimesOk : Bool
deriving DecidableEq

/-- `targetName := finfo.Name()` plus ".gz" when compression is on
(main.go 130-133). -/
def targetName (compress : Bool) (name : String) : String :=
  if compress then name ++ ".gz" else name

/-- Go `strings.HasSuffix(s, suffix)`: the suffix's characters end the
string's character sequence. -/
def hasSuffix (s suffix : String) : Bool :=
  suffix.data.isSuffixOf s.data

/-- The selection test of main.go line 138:
`fMod.After(startTime) && fCreate.Before(endTime) && strings.HasSuffix(finfo.Name(), ".tmp")`. -/
def selectedEntry (startTime endTime : Int) (e : Entry) : Bool :=
  decide (startTime < e.modTime) && decide (e.createTime < endTime) &&
    hasSuffix e.name ".tmp"

/-- Observable actions of one `CopyFiles` loop iteration; log lines and
stream operations, in program order. -/
inductive Ev where
  | infoFailed (name : String)
  | openSrcFailed (name : String)
  | openedSrc (name : String)
  | createDstFailed (name : String)
  | createdDst (name : String)
  | copyFailed (name : String)
  | closeSrc (name : String)
  | closeComp (name : String)
  | closeDst (name : String)
  | chtimesSet (path : String) (modTime : Int)
  | chtimesFailed (name : String)
deriving DecidableEq

/-- The close sequence shared by the copy-failure path (main.go 167-171) and
the success path (174-178): `s.Close()`, then `d.Close()`, then — when
compressing — `zd.Close()`.  When compressing, `d` is the gzip writer wrapped
around the destination file `zd`; otherwise `d` is the destination file. -/
def closeEvs (compress : Bool) (srcName tn : String) : List Ev :=
  Ev.closeSrc srcName ::
    (if compress then [Ev.closeComp srcName, Ev.closeDst tn] else [Ev.closeDst tn])

/-- One iteration of the `for _, f := range sdir` loop (main.go 124-186). -/
def processEntry (compress : Bool) (startTime endTime : Int) (dst server : String)
    (e : Entry) : List Ev :=
  if e.isDir then []
  else if !e.infoOk then [Ev.infoFailed e.name]
  else if selectedEntry startTime endTime e then
    if !e.openSrcOk then [Ev.openSrcFailed e.name]
    else if !e.createDstOk then
      [Ev.openedSrc e.name, Ev.createDstFailed (targetName compress e.name),
        Ev.closeSrc e.name]
    else
      Ev.openedSrc e.name :: Ev.createdDst (targetName compress e.name) ::
        (match (copyFile e.copySteps []).1 with
         | some _ =>
           Ev.copyFailed (targetName compress e.name) ::
             closeEvs compress e.name (targetName compress e.name)
         | none =>
           closeEvs compress e.name (targetName compress e.name) ++
             [if e.chtimesOk then
                Ev.chtimesSet (dst ++ "/" ++ server ++ "/" ++ targetName compress e.name)
                  e.modTime
              else Ev.chtimesFailed (targetName compress e.name)])
  else []

/-- The whole scan loop, in listing order. -/
def scanEntries (compress : Bool) (startTime endTime : Int) (dst server : String) :
    List Entry → List Ev
  | [] => []
  | e :: rest =>
    processEntry compress startTime endTime dst server e ++
      scanEntries compress startTime endTime dst server rest

/-- Outcome of `os.Stat` on the per-server destination folder
(main.go 107-116). -/
inductive StatRes where
  | ok
  | notExist
  | otherErr
deriving DecidableEq

/-- I/O outcomes the environment gives one `CopyFiles` invocation:
the destination-folder stat, the `os.MkdirAll` outcome, and the `os.ReadDir`
listing of the source (`none` models a listing error). -/
structure Env where
  stat : StatRes
  mkdirOk : Bool
  listing : Option (List Entry)
deriving DecidableEq

/-- How one `CopyFiles` call ends.  `fatal` is the `log.Fatalf` path, which
terminates the whole process; `earlyReturn` is the `return` after a listing
failure; `completed` carries the events of a full scan. -/
inductive SyncResult where
  | fatal
  | earlyReturn
  | completed (events : List Ev)
deriving DecidableEq

/-- The listing phase of `CopyFiles` (main.go 118-187). -/
def scanPhase (compress : Bool) (startTime endTime : Int) (dst server : String)
    (env : Env) : SyncResult :=
  match env.listing with
  | none => SyncResult.earlyReturn
  | some entries =>
    SyncResult.completed (scanEntries compress startTime endTime dst server entries)

/-- Embedding of `CopyFiles` (main.go 103-188): stat the per-server
destination folder, create it if absent (`log.Fatalf` on failure, and on any
other stat error), then list and scan the source. -/
def CopyFiles (compress : Bool) (startTime endTime : Int) (dst server : String)
    (env : Env) : SyncResult :=
  match env.stat with
  | StatRes.ok => scanPhase compress startTime endTime dst server env
  | StatRes.notExist =>
    if env.mkdirOk then scanPhase compress startTime endTime dst server env
    else SyncResult.fatal
  | StatRes.otherErr => SyncResult.fatal

/-- Open events: an entry produced one exactly when the loop decided to
transfer it (reached `os.Open` on the source, line 140). -/
def isOpenEv : Ev → Bool
  | Ev.openedSrc _ => true
  | Ev.openSrcFailed _ => true
  | _ => false

/-- The entry was selected for transfer by this iteration. -/
def selectedForTransfer (compress : Bool) (startTime endTime : Int)
    (dst server : String) (e : Entry) : Bool :=
  (processEntry compress startTime endTime dst server e).any isOpenEv

/-- Close events of the three streams. -/
def isCloseEv : Ev → Bool
  | Ev.closeSrc _ => true
  | Ev.closeComp _ => true
  | Ev.closeDst _ => true
  | _ => false

/-! ## Destination paths (main.go 79-85 and 150/158/180) -/

/-- The run's destination root built in `main` (line 85):
`destination += fmt.Sprintf("/%s/%s-%s", cluster, start, end)` with both
stamps in the fixed "20060102T150405Z" layout. -/
def mainDestination (root cluster : String) (startT endT : DateTime) : String :=
  root ++ "/" ++ cluster ++ "/" ++ formatStamp startT ++ "-" ++ formatStamp endT

/-- A copied file's path, `fmt.Sprintf("%s/%s/%s", dst, server, targetName)`
(main.go 150/158/180). -/
def entryDestPath (dst server tn : String) : String :=
  dst ++ "/" ++ server ++ "/" ++ tn

/-- The output path exactly as the claim words it: snapshot-directory
component `<startStamp>T<endStamp>Z` — the two full stamps joined by a
literal 'T' with a trailing 'Z'.  Stated only to be compared against the
path the code builds. -/
def claimedDestPath (root cluster server name : String) (startT endT : DateTime)
    (compress : Bool) : String :=
  root ++ "/" ++ cluster ++ "/" ++ formatStamp startT ++ "T" ++ formatStamp endT ++ "Z" ++
    "/" ++ server ++ "/" ++ (if compress then name ++ ".gz" else name)

/-! ## Fan-out over the cluster section (main.go 87-100) -/

/-- The `for _, k := range sect.Keys()` loop: a `logshare` key updates the
share (`k.MustString("SPSS_DIMENSIONS_LOGS")`: the key's value, or that
default when the value is empty) and launches nothing; every other key
launches one `CopyFiles` goroutine for source path
`fmt.Sprintf("//%s/%s", k.Value(), share)` with the share current at launch
time.  Returns the (key name, source path) pairs launched, in order. -/
def fanOutAux : String → List (String × String) → List (String × String)
  | _, [] => []
  | share, (n, v) :: rest =>
    if n = "logshare" then
      fanOutAux (if v.isEmpty then "SPSS_DIMENSIONS_LOGS" else v) rest
    else (n, "//" ++ v ++ "/" ++ share) :: fanOutAux share rest

/-- The fan-out loop starting from the zero value of `share`. -/
def fanOut (keys : List (String × String)) : List (String × String) :=
  fanOutAux "" keys

/-! ## Retention Pruner (`cleanup`, main.go 208-242) -/

/-- Go `strings.Split(s, sep)` for a one-character separator: splits around
every occurrence of the separator, keeping empty parts, and yields the whole
string as a single part when the separator does not occur. -/
def splitCharAux (sep : Char) : List Char → List Char → List (List Char)
  | [], acc => [acc.reverse]
  | c :: cs, acc =>
    if c = sep then acc.reverse :: splitCharAux sep cs []
    else splitCharAux sep cs (c :: acc)

/-- `strings.Split(s, sep)` with a one-character separator, over strings. -/
def splitString (s : String) (sep : Char) : List String :=
  (splitCharAux sep s.data []).map (fun cs => String.mk cs)

/-- A destination-root child as `cleanup` sees it, with the outcome
`os.RemoveAll` would give for it. -/
structure PruneEntry where
  name : String
  isDir : Bool
  removeOk : Bool
deriving DecidableEq

inductive PrEv where
  | removed (name : String)
  | removeFailed (name : String)
deriving DecidableEq

/-- One iteration of the `for _, entry := range entries` loop of `cleanup`
(main.go 224-241): only directories whose name has byte length 33 and splits
on "-" into exactly two parts are considered; the second part must parse in
the fixed stamp layout; the directory is removed when the parsed end stamp is
before the cutoff (`time.Now().UTC().Add(-1 * dur)`, supplied here as the
input `cutoff`).  A removal failure is only logged. -/
def prunesEntry (cutoff : DateTime) (e : PruneEntry) : List PrEv :=
  if e.isDir then
    if e.name.utf8ByteSize = 33 ∧ (splitString e.name '-').length = 2 then
      match parseStamp ((splitString e.name '-').getD 1 "") with
      | none => []
      | some endT =>
        if ltDT endT cutoff then
          [if e.removeOk then PrEv.removed e.name else PrEv.removeFailed e.name]
        else []
    else []
  else []

/-- Embedding of the scan loop of `cleanup`, in listing order. -/
def cleanup (cutoff : DateTime) : List PruneEntry → List PrEv
  | [] => []
  | e :: rest => prunesEntry cutoff e ++ cleanup cutoff rest

/-! ## Concrete data used by witnesses and counterexamples -/

/-- A two-step read trace: one 2-byte chunk, then a clean EOF. -/
def demoSteps : List Step := [⟨[7, 8], none, none⟩, ⟨[], some RErr.eof, none⟩]

/-- A selectable candidate file whose copy succeeds. -/
def demoEntry : Entry :=
  { name := "a.tmp", isDir := false, infoOk := true, modTime := 5, createTime := 0,
    openSrcOk := true, createDstOk := true, copySteps := demoSteps, chtimesOk := true }

/-! ## Helper lemmas -/

/-- A successful run consumes a block of good steps followed by a clean
zero-length read, and writes exactly the chunks of the good steps. -/
lemma copyFile_ok_char : ∀ (steps : List Step) (acc w : List Nat),
    copyFile steps acc = (none, w) →
    ∃ pre s post, steps = pre ++ s :: post ∧ (∀ t ∈ pre, goodStep t = true) ∧
      termStep s = true ∧ w = acc ++ chunksOf pre := by
  intro steps
  induction steps with
  | nil =>
    intro acc w h
    simp [copyFile] at h
  | cons s rest ih =>
    intro acc w h
    rcases hh : stepHardErr s with _ | c
    · rcases hd : s.data.isEmpty with _ | _
      · rcases hw : s.werr with _ | c
        · simp only [copyFile, hh, hd, hw] at h
          obtain ⟨pre, s', post, heq, hgood, hterm, hacc⟩ := ih (acc ++ s.data) w h
          refine ⟨s :: pre, s', post, by rw [heq]; rfl, ?_, hterm, ?_⟩
          · intro t ht
            rcases List.mem_cons.mp ht with rfl | ht'
            · simp [goodStep, hh, hd, hw]
            · exact hgood t ht'
          · simp only [chunksOf, hacc, List.append_assoc]
        · simp [copyFile, hh, hd, hw] at h
      · simp only [copyFile, hh, hd, if_true, Prod.mk.injEq, true_and] at h
        exact ⟨[], s, rest, rfl, by simp, by simp [termStep, hh, hd],
          by simp [chunksOf, h.symm]⟩
    · simp [copyFile, hh] at h


/-- A run that surfaces a read error consumed good steps and then hit a read
whose error is neither nil nor EOF; the chunks before it were all written. -/
lemma copyFile_readErr_char : ∀ (steps : List Step) (acc w : List Nat) (c : Nat),
    copyFile steps acc = (some (CopyErr.readErr c), w) →
    ∃ pre s post, steps = pre ++ s :: post ∧ (∀ t ∈ pre, goodStep t = true) ∧
      stepHardErr s = some c ∧ w = acc ++ chunksOf pre := by
  intro steps
  induction steps with
  | nil =>
    intro acc w c h
    simp [copyFile] at h
  | cons s rest ih =>
    intro acc w c h
    rcases hh : stepHardErr s with _ | c'
    · rcases hd : s.data.isEmpty with _ | _
      · rcases hw : s.werr with _ | c'
        · simp only [copyFile, hh, hd, hw] at h
          obtain ⟨pre, s', post, heq, hgood, hhard, hacc⟩ := ih (acc ++ s.data) w c h
          refine ⟨s :: pre, s', post, by rw [heq]; rfl, ?_, hhard, ?_⟩
          · intro t ht
            rcases List.mem_cons.mp ht with rfl | ht'
            · simp [goodStep, hh, hd, hw]
            · exact hgood t ht'
          · simp only [chunksOf, hacc, List.append_assoc]
        · simp [copyFile, hh, hd, hw] at h
      · simp [copyFile, hh, hd] at h
    · simp only [copyFile, hh, Prod.mk.injEq, Option.some.injEq, CopyErr.readErr.injEq] at h
      exact ⟨[], s, rest, rfl, by simp, by rw [hh, h.1], by simp [chunksOf, h.2.symm]⟩

/-- A run that surfaces a write error consumed good steps and then hit a step
whose read was fine and delivered a nonempty chunk, but whose write failed. -/
lemma copyFile_writeErr_char : ∀ (steps : List Step) (acc w : List Nat) (c : Nat),
    copyFile steps acc = (some (CopyErr.writeErr c), w) →
    ∃ pre s post, steps = pre ++ s :: post ∧ (∀ t ∈ pre, goodStep t = true) ∧
      stepHardErr s = none ∧ s.data.isEmpty = false ∧ s.werr = some c ∧
      w = acc ++ chunksOf pre := by
  intro steps
  induction steps with
  | nil =>
    intro acc w c h
    simp [copyFile] at h
  | cons s rest ih =>
    intro acc w c h
    rcases hh : stepHardErr s with _ | c'
    · rcases hd : s.data.isEmpty with _ | _
      · rcases hw : s.werr with _ | c'
        · simp only [copyFile, hh, hd, hw] at h
          obtain ⟨pre, s', post, heq, hgood, h1, h2, h3, hacc⟩ := ih (acc ++ s.data) w c h
          refine ⟨s :: pre, s', post, by rw [heq]; rfl, ?_, h1, h2, h3, ?_⟩
          · intro t ht
            rcases List.mem_cons.mp ht with rfl | ht'
            · simp [goodStep, hh, hd, hw]
            · exact hgood t ht'
          · simp only [chunksOf, hacc, List.append_assoc]
        · simp [copyFile, hh, hd, hw] at h
          obtain ⟨rfl, rfl⟩ := h
          exact ⟨[], s, rest, rfl, by simp, hh, hd, hw, by simp [chunksOf]⟩
      · simp [copyFile, hh, hd] at h
    · simp [copyFile, hh] at h

/-- A trace the loop exhausts without exiting consists of good steps only,
all of whose chunks were written. -/
lemma copyFile_incomplete_char : ∀ (steps : List Step) (acc w : List Nat),
    copyFile steps acc = (some CopyErr.incomplete, w) →
    (∀ t ∈ steps, goodStep t = true) ∧ w = acc ++ chunksOf steps := by
  intro steps
  induction steps with
  | nil =>
    intro acc w h
    simp only [copyFile, Prod.mk.injEq] at h
    exact ⟨by simp, by simp [chunksOf, h.2.symm]⟩
  | cons s rest ih =>
    intro acc w h
    rcases hh : stepHardErr s with _ | c
    · rcases hd : s.data.isEmpty with _ | _
      · rcases hw : s.werr with _ | c
        · simp only [copyFile, hh, hd, hw] at h
          obtain ⟨hgood, hacc⟩ := ih (acc ++ s.data) w h
          refine ⟨?_, by simp only [chunksOf, hacc, List.append_assoc]⟩
          intro t ht
          rcases List.mem_cons.mp ht with rfl | ht'
          · simp [goodStep, hh, hd, hw]
          · exact hgood t ht'
        · simp [copyFile, hh, hd, hw] at h
      · simp [copyFile, hh, hd] at h
    · simp [copyFile, hh] at h

lemma sourceBytes_decomp : ∀ (pre : List Step) (s : Step) (post : List Step),
    (∀ t ∈ pre, goodStep t = true) → termStep s = true →
    sourceBytes (pre ++ s :: post) = some (chunksOf pre) := by
  intro pre
  induction pre with
  | nil =>
    intro s post _ hterm
    simp only [termStep, Bool.and_eq_true] at hterm
    simp [sourceBytes, chunksOf, Option.isNone_iff_eq_none.mp hterm.1, hterm.2]
  | cons t pre' ih =>
    intro s post hgood hterm
    have hgt := hgood t (List.mem_cons_self t pre')
    simp only [goodStep, Bool.and_eq_true, Bool.not_eq_true'] at hgt
    have hrec := ih s post (fun u hu => hgood u (List.mem_cons_of_mem t hu)) hterm
    simp [sourceBytes, chunksOf, Option.isNone_iff_eq_none.mp hgt.1.1, hgt.1.2, hrec]

/-! ## Claim theorems -/

/-- C2: the Stream Copier reads the source in chunks through a fixed 1024-byte
buffer and writes each chunk verbatim until a zero-length read that carries no
hard error (end-of-stream); a read error other than EOF aborts the copy and
surfaces as a read failure with that error, a write error aborts it and
surfaces as a write failure with that error, and a successful run returns no
error, having written exactly the chunks read before the terminating
zero-length read. -/
theorem copyFile_contract (steps : List Step) (w : List Nat) (c : Nat)
    (hbuf : ∀ s ∈ steps, s.data.length ≤ bufSize) :
    bufSize = 1024
    ∧ (copyFile steps [] = (none, w) →
        ∃ pre s post, steps = pre ++ s :: post ∧ (∀ t ∈ pre, goodStep t = true) ∧
          termStep s = true ∧ w = chunksOf pre)
    ∧ (copyFile steps [] = (some (CopyErr.readErr c), w) →
        ∃ pre s post, steps = pre ++ s :: post ∧ (∀ t ∈ pre, goodStep t = true) ∧
          stepHardErr s = some c ∧ w = chunksOf pre)
    ∧ (copyFile steps [] = (some (CopyErr.writeErr c), w) →
        ∃ pre s post, steps = pre ++ s :: post ∧ (∀ t ∈ pre, goodStep t = true) ∧
          stepHardErr s = none ∧ s.data.isEmpty = false ∧ s.werr = some c ∧
          w = chunksOf pre) := by
  refine ⟨rfl, ?_, ?_, ?_⟩
  · intro h
    obtain ⟨pre, s, post, heq, hgood, hterm, hw⟩ := copyFile_ok_char steps [] w h
    exact ⟨pre, s, post, heq, hgood, hterm, by simpa using hw⟩
  · intro h
    obtain ⟨pre, s, post, heq, hgood, hhard, hw⟩ := copyFile_readErr_char steps [] w c h
    exact ⟨pre, s, post, heq, hgood, hhard, by simpa using hw⟩
  · intro h
    obtain ⟨pre, s, post, heq, hgood, h1, h2, h3, hw⟩ :=
      copyFile_writeErr_char steps [] w c h
    exact ⟨pre, s, post, heq, hgood, h1, h2, h3, by simpa using hw⟩

/-- Witness for `copyFile_contract` at the concrete trace `demoSteps`. -/
theorem copyFile_contract_witness :
    ∃ pre s post, demoSteps = pre ++ s :: post ∧ (∀ t ∈ pre, goodStep t = true) ∧
      termStep s = true ∧ [7, 8] = chunksOf pre :=
  (copyFile_contract demoSteps [7, 8] 0 (by decide)).2.1 (by decide)

/-- C3: when the copy completes without error, the bytes written to the
destination are exactly the source's byte sequence — the copy is a function of
the source bytes alone — and hence, with compression enabled, decompressing
the compressed output reproduces the source bytes byte for byte. -/
theorem copy_pure_and_roundtrip (steps : List Step) (w : List Nat)
    (h : copyFile steps [] = (none, w)) :
    sourceBytes steps = some w ∧ gzipDecompress (gzipCompress w) = w := by
  obtain ⟨pre, s, post, heq, hgood, hterm, hw⟩ := copyFile_ok_char steps [] w h
  have hw' : w = chunksOf pre := by simpa using hw
  subst heq
  constructor
  · rw [sourceBytes_decomp pre s post hgood hterm, hw']
  · simp [gzipCompress, gzipDecompress, hw']

/-- Witness for `copy_pure_and_roundtrip` at the concrete trace `demoSteps`. -/
theorem copy_pure_and_roundtrip_witness :
    sourceBytes demoSteps = some [7, 8] ∧
      gzipDecompress (gzipCompress [7, 8]) = [7, 8] :=
  copy_pure_and_roundtrip demoSteps [7, 8] (by decide)

/-- For a non-directory entry with readable metadata, the loop reaches the
source `os.Open` exactly when the line-138 test holds. -/
lemma selectedForTransfer_eq (compress : Bool) (startTime endTime : Int)
    (dst server : String) (e : Entry) (hdir : e.isDir = false)
    (hinfo : e.infoOk = true) :
    selectedForTransfer compress startTime endTime dst server e =
      selectedEntry startTime endTime e := by
  unfold selectedForTransfer processEntry
  rcases hsel : selectedEntry startTime endTime e with _ | _
  · simp [hdir, hinfo, hsel]
  · rcases ho : e.openSrcOk with _ | _
    · simp [hdir, hinfo, hsel, ho, isOpenEv]
    · rcases hc : e.createDstOk with _ | _
      · simp [hdir, hinfo, hsel, ho, hc, isOpenEv]
      · rcases hcp : (copyFile e.copySteps []).1 with _ | e'
        · simp [hdir, hinfo, hsel, ho, hc, hcp, isOpenEv]
        · simp [hdir, hinfo, hsel, ho, hc, hcp, isOpenEv]

/-- C1: a non-directory entry with readable metadata is selected for transfer
iff its name ends with ".tmp", its modification time is strictly after the
window start and its creation time is strictly before the window end; an
entry that is a directory is never selected, whatever its name, times or the
rest of the environment. -/
theorem fileSelector_spec (compress : Bool) (startTime endTime : Int)
    (dst server : String) (e : Entry) :
    (e.isDir = true →
      selectedForTransfer compress startTime endTime dst server e = false)
    ∧ (e.isDir = false → e.infoOk = true →
      (selectedForTransfer compress startTime endTime dst server e = true ↔
        (hasSuffix e.name ".tmp" = true ∧ startTime < e.modTime ∧
          e.createTime < endTime))) := by
  constructor
  · intro hdir
    simp [selectedForTransfer, processEntry, hdir]
  · intro hdir hinfo
    rw [selectedForTransfer_eq compress startTime endTime dst server e hdir hinfo]
    unfold selectedEntry
    constructor
    · intro h
      simp only [Bool.and_eq_true, decide_eq_true_eq] at h
      exact ⟨h.2, h.1.1, h.1.2⟩
    · intro h
      simp only [Bool.and_eq_true, decide_eq_true_eq]
      exact ⟨⟨h.2.1, h.2.2⟩, h.1⟩

/-- Witness for `fileSelector_spec`: the concrete entry `demoEntry` is
selected in the window (0, 10). -/
theorem fileSelector_spec_witness :
    selectedForTransfer false 0 10 "dst" "srv" demoEntry = true :=
  ((fileSelector_spec false 0 10 "dst" "srv" demoEntry).2 (by decide)
    (by decide)).mpr (by decide)

/-- C4 counterexample: for a concrete compressed transfer the close events are
not, as the claim states, compressor first, then destination file, then
source file.  (They are source first, then compressor, then destination
file: `s.Close()`, `d.Close()`, `zd.Close()` at main.go 174-178, where with
compression `d` is the gzip writer and `zd` the destination file.) -/
theorem closeOrder_claim_false :
    (processEntry true 0 10 "dst" "srv" demoEntry).filter isCloseEv ≠
      [Ev.closeComp "a.tmp", Ev.closeDst "a.tmp.gz", Ev.closeSrc "a.tmp"] := by
  decide

/-- C4 (amended): after the Stream Copier finishes for a qualifying entry —
and equally on copy failure — the streams are closed in the order: source
file first, then the compressor (whose Close flushes), then the destination
file; without compression, source file then destination file. -/
theorem closeOrder_spec (startTime endTime : Int) (dst server : String) (e : Entry)
    (hdir : e.isDir = false) (hinfo : e.infoOk = true)
    (hsel : selectedEntry startTime endTime e = true)
    (ho : e.openSrcOk = true) (hc : e.createDstOk = true) :
    (processEntry true startTime endTime dst server e).filter isCloseEv =
      [Ev.closeSrc e.name, Ev.closeComp e.name, Ev.closeDst (targetName true e.name)]
    ∧ (processEntry false startTime endTime dst server e).filter isCloseEv =
      [Ev.closeSrc e.name, Ev.closeDst (targetName false e.name)] := by
  constructor
  · unfold processEntry
    rcases hcp : (copyFile e.copySteps []).1 with _ | e'
    · rcases hch : e.chtimesOk with _ | _
      · simp [hdir, hinfo, hsel, ho, hc, hcp, hch, closeEvs, isCloseEv]
      · simp [hdir, hinfo, hsel, ho, hc, hcp, hch, closeEvs, isCloseEv]
    · simp [hdir, hinfo, hsel, ho, hc, hcp, closeEvs, isCloseEv]
  · unfold processEntry
    rcases hcp : (copyFile e.copySteps []).1 with _ | e'
    · rcases hch : e.chtimesOk with _ | _
      · simp [hdir, hinfo, hsel, ho, hc, hcp, hch, closeEvs, isCloseEv]
      · simp [hdir, hinfo, hsel, ho, hc, hcp, hch, closeEvs, isCloseEv]
    · simp [hdir, hinfo, hsel, ho, hc, hcp, closeEvs, isCloseEv]

/-- Witness for `closeOrder_spec` at the concrete entry `demoEntry`. -/
theorem closeOrder_spec_witness :
    (processEntry true 0 10 "dst" "srv" demoEntry).filter isCloseEv =
      [Ev.closeSrc demoEntry.name, Ev.closeComp demoEntry.name,
        Ev.closeDst (targetName true demoEntry.name)]
    ∧ (processEntry false 0 10 "dst" "srv" demoEntry).filter isCloseEv =
      [Ev.closeSrc demoEntry.name, Ev.closeDst (targetName false demoEntry.name)] :=
  closeOrder_spec 0 10 "dst" "srv" demoEntry (by decide) (by decide) (by decide)
    (by decide) (by decide)

/-- The last element of `a :: (l ++ [x])` is `x`. -/
lemma getLast?_cons_append_singleton {α : Type} : ∀ (l : List α) (a x : α),
    (a :: (l ++ [x])).getLast? = some x := by
  intro l
  induction l with
  | nil => intro a x; rfl
  | cons b l ih =>
    intro a x
    rw [List.cons_append, List.getLast?_cons_cons]
    exact ih b x

/-- C9: when an entry's copy succeeds, the iteration ends by restoring the
destination file's modification time to the entry's modification time as read
before the copy — the same instant whether or not compression is enabled
(`compress` is arbitrary here) — and a failure of that restore only logs;
either way the scan continues with the remaining entries. -/
theorem timestampRestore_spec (compress : Bool) (startTime endTime : Int)
    (dst server : String) (e : Entry)
    (hdir : e.isDir = false) (hinfo : e.infoOk = true)
    (hsel : selectedEntry startTime endTime e = true)
    (ho : e.openSrcOk = true) (hc : e.createDstOk = true)
    (hcopy : (copyFile e.copySteps []).1 = none) :
    (e.chtimesOk = true →
      (processEntry compress startTime endTime dst server e).getLast? =
        some (Ev.chtimesSet (dst ++ "/" ++ server ++ "/" ++ targetName compress e.name)
          e.modTime))
    ∧ (e.chtimesOk = false →
      (processEntry compress startTime endTime dst server e).getLast? =
        some (Ev.chtimesFailed (targetName compress e.name)))
    ∧ (∀ rest, scanEntries compress startTime endTime dst server (e :: rest) =
        processEntry compress startTime endTime dst server e ++
          scanEntries compress startTime endTime dst server rest) := by
  refine ⟨?_, ?_, fun rest => rfl⟩
  · intro hch
    unfold processEntry
    simp [hdir, hinfo, hsel, ho, hc, hcopy, hch, closeEvs,
      List.getLast?_cons_cons, getLast?_cons_append_singleton]
  · intro hch
    unfold processEntry
    simp [hdir, hinfo, hsel, ho, hc, hcopy, hch, closeEvs,
      List.getLast?_cons_cons, getLast?_cons_append_singleton]

/-- Witness for `timestampRestore_spec` at the concrete entry `demoEntry`. -/
theorem timestampRestore_spec_witness :
    (processEntry true 0 10 "dst" "srv" demoEntry).getLast? =
      some (Ev.chtimesSet ("dst" ++ "/" ++ "srv" ++ "/" ++ targetName true demoEntry.name)
        demoEntry.modTime) :=
  (timestampRestore_spec true 0 10 "dst" "srv" demoEntry (by decide) (by decide)
    (by decide) (by decide) (by decide) (by decide)).1 (by decide)

/-- Scanning a concatenation of listings concatenates the event streams. -/
lemma scanEntries_append (compress : Bool) (startTime endTime : Int)
    (dst server : String) : ∀ (xs ys : List Entry),
    scanEntries compress startTime endTime dst server (xs ++ ys) =
      scanEntries compress startTime endTime dst server xs ++
        scanEntries compress startTime endTime dst server ys := by
  intro xs ys
  induction xs with
  | nil => rfl
  | cons x xs ih => simp [scanEntries, ih]

/-- C7: a failure on a single candidate (metadata, source open, destination
create, or copy — all recorded inside that entry's own events) skips only that
entry: the scan still processes every entry before and after it.  A listing
failure makes `CopyFiles` return early, and a destination-folder creation
failure (or any other stat error) takes the fatal path that terminates the
whole process. -/
theorem errorScoping_spec (compress : Bool) (startTime endTime : Int)
    (dst server : String) (env : Env) (xs ys : List Entry) (e : Entry) :
    (env.stat = StatRes.ok → env.listing = none →
      CopyFiles compress startTime endTime dst server env = SyncResult.earlyReturn)
    ∧ (env.stat = StatRes.notExist → env.mkdirOk = false →
      CopyFiles compress startTime endTime dst server env = SyncResult.fatal)
    ∧ (env.stat = StatRes.otherErr →
      CopyFiles compress startTime endTime dst server env = SyncResult.fatal)
    ∧ (env.stat = StatRes.ok → env.listing = some (xs ++ e :: ys) →
      CopyFiles compress startTime endTime dst server env =
        SyncResult.completed
          (scanEntries compress startTime endTime dst server xs ++
            processEntry compress startTime endTime dst server e ++
            scanEntries compress startTime endTime dst server ys)) := by
  refine ⟨?_, ?_, ?_, ?_⟩
  · intro hstat hlist
    simp [CopyFiles, scanPhase, hstat, hlist]
  · intro hstat hmk
    simp [CopyFiles, hstat, hmk]
  · intro hstat
    simp [CopyFiles, hstat]
  · intro hstat hlist
    simp only [CopyFiles, scanPhase, hstat, hlist]
    rw [scanEntries_append]
    simp [scanEntries, List.append_assoc]

/-- Witness for `errorScoping_spec`: a one-entry listing is scanned around
that entry. -/
theorem errorScoping_spec_witness :
    CopyFiles false 0 10 "dst" "srv"
        { stat := StatRes.ok, mkdirOk := true, listing := some ([] ++ demoEntry :: []) } =
      SyncResult.completed
        (scanEntries false 0 10 "dst" "srv" [] ++
          processEntry false 0 10 "dst" "srv" demoEntry ++
          scanEntries false 0 10 "dst" "srv" []) :=
  (errorScoping_spec false 0 10 "dst" "srv"
    { stat := StatRes.ok, mkdirOk := true, listing := some ([] ++ demoEntry :: []) }
    [] [] demoEntry).2.2.2 rfl rfl

/-- C8 counterexample: on an input whose destination-folder stat fails with an
error other than not-exists, `CopyFiles` takes the `log.Fatalf` path — the
process is terminated rather than the synchronizer completing and merely
logging, so "always completes for every input" is false as stated.  (The same
happens when the folder is absent and `os.MkdirAll` fails.) -/
theorem syncTotal_claim_false :
    CopyFiles false 0 10 "dst" "srv"
        { stat := StatRes.otherErr, mkdirOk := true, listing := some [] } =
      SyncResult.fatal ∧
    SyncResult.fatal ≠ SyncResult.earlyReturn ∧
    ∀ evs, SyncResult.fatal ≠ SyncResult.completed evs := by
  refine ⟨rfl, by simp, by simp⟩

/-- C8 (amended): for every input on which the per-server destination folder
check succeeds — the folder exists, or it is absent and its creation succeeds
— `CopyFiles` always completes without panicking: it either returns early
(after logging a listing failure) or finishes the scan, all failures being
reported as logged events. -/
theorem syncTotal_amended (compress : Bool) (startTime endTime : Int)
    (dst server : String) (env : Env)
    (h : env.stat = StatRes.ok ∨ (env.stat = StatRes.notExist ∧ env.mkdirOk = true)) :
    CopyFiles compress startTime endTime dst server env = SyncResult.earlyReturn
    ∨ ∃ evs, CopyFiles compress startTime endTime dst server env =
        SyncResult.completed evs := by
  have hphase : CopyFiles compress startTime endTime dst server env =
      scanPhase compress startTime endTime dst server env := by
    rcases h with hstat | ⟨hstat, hmk⟩
    · simp [CopyFiles, hstat]
    · simp [CopyFiles, hstat, hmk]
  rw [hphase]
  unfold scanPhase
  rcases hlist : env.listing with _ | entries
  · exact Or.inl rfl
  · exact Or.inr ⟨_, rfl⟩

/-- Witness for `syncTotal_amended` on a concrete environment. -/
theorem syncTotal_amended_witness :
    CopyFiles false 0 10 "dst" "srv"
        { stat := StatRes.notExist, mkdirOk := true, listing := none } =
        SyncResult.earlyReturn
    ∨ ∃ evs, CopyFiles false 0 10 "dst" "srv"
        { stat := StatRes.notExist, mkdirOk := true, listing := none } =
        SyncResult.completed evs :=
  syncTotal_amended false 0 10 "dst" "srv"
    { stat := StatRes.notExist, mkdirOk := true, listing := none }
    (Or.inr ⟨rfl, rfl⟩)

/-- C10: in the cluster-section loop, every key other than `logshare` launches
one synchronizer whose source path is `//<value>/<share>` with the share
current at launch time; in particular every key listed before the `logshare`
key is launched with the share still at its zero value, giving the truncated
path `//<value>/`, and the keys after it use the configured share (or its
`SPSS_DIMENSIONS_LOGS` default when the value is empty) — so the scanned
paths depend on configuration key order. -/
theorem fanOut_logshare_order (pre : List (String × String)) (lv : String)
    (post : List (String × String))
    (hpre : ∀ p ∈ pre, p.1 ≠ "logshare") :
    fanOut (pre ++ ("logshare", lv) :: post) =
      pre.map (fun p => (p.1, "//" ++ p.2 ++ "/")) ++
        fanOutAux (if lv.isEmpty then "SPSS_DIMENSIONS_LOGS" else lv) post := by
  unfold fanOut
  induction pre with
  | nil => simp [fanOutAux]
  | cons p pre ih =>
    have hp : p.1 ≠ "logshare" := hpre p (List.mem_cons_self p pre)
    rcases p with ⟨n, v⟩
    have ih' := ih (fun q hq => hpre q (List.mem_cons_of_mem _ hq))
    simp only [List.cons_append, fanOutAux, if_neg hp, List.append_eq, List.map_cons,
      String.append_empty, ih']

/-- Witness for `fanOut_logshare_order` on a concrete key list: the server
key before `logshare` gets the truncated path. -/
theorem fanOut_logshare_order_witness :
    fanOut ([("s1", "h1")] ++ ("logshare", "logs") :: [("s2", "h2")]) =
      [("s1", "h1")].map (fun p => (p.1, "//" ++ p.2 ++ "/")) ++
        fanOutAux (if "logs".isEmpty then "SPSS_DIMENSIONS_LOGS" else "logs")
          [("s2", "h2")] :=
  fanOut_logshare_order [("s1", "h1")] "logs" [("s2", "h2")] (by decide)

/-- C5 counterexample: at a concrete root, cluster, window, server and file
name the path the program builds is not the claimed
`<root>/<cluster>/<startStamp>T<endStamp>Z/<server>/<filename>`: the snapshot
directory joins the two stamps with "-" (main.go 85), not with a literal 'T'
and a trailing 'Z'. -/
theorem outputPath_claim_false :
    entryDestPath (mainDestination "/logs" "c1" ⟨2024, 1, 1, 0, 0, 0⟩ ⟨2024, 1, 1, 1, 0, 0⟩)
        "srv" (targetName false "a.tmp") ≠
      claimedDestPath "/logs" "c1" "srv" "a.tmp" ⟨2024, 1, 1, 0, 0, 0⟩
        ⟨2024, 1, 1, 1, 0, 0⟩ false := by
  decide

/-- C5 (amended): every output file of a run is persisted at
`<root>/<cluster>/<startStamp>-<endStamp>/<server>/<filename>[.gz]`: the
snapshot-directory component encodes the run's window as the two fixed-format
"YYYYMMDDThhmmssZ" stamps joined by "-", and the ".gz" suffix is appended
exactly when compression is enabled. -/
theorem outputPath_spec (root cluster server name : String) (startT endT : DateTime)
    (compress : Bool) :
    entryDestPath (mainDestination root cluster startT endT) server
        (targetName compress name) =
      root ++ "/" ++ cluster ++ "/" ++ (formatStamp startT ++ "-" ++ formatStamp endT) ++
        "/" ++ server ++ "/" ++ name ++ (if compress then ".gz" else "") := by
  rcases compress with _ | _
  · simp [entryDestPath, mainDestination, targetName, String.append_empty,
      String.append_assoc]
  · simp [entryDestPath, mainDestination, targetName, String.append_assoc]

/-- C6: the Retention Pruner attempts to delete a destination-root child iff
it is a directory, its name is 33 bytes long and splits on "-" into exactly
two parts, the second part parses in the fixed "20060102T150405Z" layout, and
the parsed end stamp is strictly before the cutoff (now minus the configured
duration); all other entries are left untouched, and a deletion failure on
one candidate (a `removeFailed` event rather than `removed`) never stops the
scan of the remaining entries. -/
theorem retentionPruner_spec (cutoff : DateTime) (e : PruneEntry)
    (xs ys : List PruneEntry) :
    (prunesEntry cutoff e ≠ [] ↔
      (e.isDir = true ∧ e.name.utf8ByteSize = 33 ∧ (splitString e.name '-').length = 2 ∧
        ∃ endT, parseStamp ((splitString e.name '-').getD 1 "") = some endT ∧
          ltDT endT cutoff = true))
    ∧ cleanup cutoff (xs ++ e :: ys) =
        cleanup cutoff xs ++ prunesEntry cutoff e ++ cleanup cutoff ys := by
  constructor
  · unfold prunesEntry
    rcases hdir : e.isDir with _ | _
    · simp [hdir]
    · simp only [hdir, if_true, true_and]
      by_cases hlen : e.name.utf8ByteSize = 33 ∧ (splitString e.name '-').length = 2
      · simp only [hlen, if_true]
        rcases hp : parseStamp ((splitString e.name '-').getD 1 "") with _ | endT
        · simp [hp, hlen]
        · rcases hlt : ltDT endT cutoff with _ | _
          · simp [hp, hlt, hlen]
          · rcases hrm : e.removeOk with _ | _
            · simp [hp, hlt, hlen, hrm]
            · simp [hp, hlt, hlen, hrm]
      · simp only [hlen, if_false]
        constructor
        · intro hne
          exact absurd rfl hne
        · intro hcond
          exact absurd ⟨hcond.1, hcond.2.1⟩ hlen
  · induction xs with
    | nil => rfl
    | cons x xs ih => simp [cleanup, ih, List.append_assoc]

end LogGatherer
